import Mathlib

/-!
# Verification of the response parsers of `OpenAI_api_backend.py`

This file gives a shallow embedding of the pure, algorithmic parts of the
Flask backend `OpenAI_api_backend.py`:

* the three regex-based response parsers (`parse_sonarqube_summary`,
  `parse_code_review_response`, and the parsing portion of
  `judge_code_competition`),
* the status-polling loops of `analyze_sonarqube_with_assistant` and
  `chat_in_thread`,
* the early input-validation branching of the `/code_review` endpoint.

Text is modelled as `List Char`.  The Python `re` searches are modelled by a
small backtracking matcher written in continuation-passing style whose
combinators reproduce the semantics of the exact regex constructs the source
uses: literals, greedy character-class quantifiers (`\d+`, `\s+`, `\s*`,
`\w+`, `[^\s]+`), lazy dot quantifiers under `re.DOTALL` (`(.+?)`, `(.*?)`),
a greedy dot star (`(.*)`), optional groups (`s?`, `(?:\w+)?`), alternation
(`User|AI`) and capturing groups.  `reSearch` tries each start position from
the left, exactly like `re.search`; `reFindAll` collects successive
non-overlapping matches like `re.findall`.

Python's character classes `\s`, `\d` and `\w` are Unicode-aware; the model
uses their ASCII ranges, which cover every character occurring in the claims.
-/

/-- ASCII range of Python's regex class `\s` (also used by `str.strip()`). -/
def pyIsSpace (c : Char) : Bool :=
  c = ' ' || c = '\t' || c = '\n' || c = '\r' || c = '\x0b' || c = '\x0c'

/-- ASCII range of Python's regex class `\d`. -/
def pyIsDigit (c : Char) : Bool :=
  '0' ≤ c && c ≤ '9'

/-- ASCII range of Python's regex class `\w`. -/
def pyIsWord (c : Char) : Bool :=
  c.isAlpha || pyIsDigit c || c = '_'

/-- Python `str.strip()`: drop leading and trailing whitespace. -/
def pyStrip (l : List Char) : List Char :=
  ((l.dropWhile pyIsSpace).reverse.dropWhile pyIsSpace).reverse

/-- Decimal value of a digit string (the value `int()` returns on it). -/
def digitsVal (l : List Char) : Int :=
  l.foldl (fun a c => a * 10 + ((c.toNat : Int) - 48)) 0

/-- Python `int()` applied to a string: defined on (nonempty) digit strings,
`none` models the `ValueError` raised on anything else.  (Full `int()` also
accepts signs and surrounding whitespace; the strings fed to it here are
captures of `(\d+)`, for which this restriction is irrelevant.) -/
def pyInt? (l : List Char) : Option Int :=
  if l ≠ [] ∧ l.all pyIsDigit then some (digitsVal l) else none

/-- Does `pat` occur as a contiguous substring? -/
def occursIn (pat : List Char) : List Char → Bool
  | [] => pat.isPrefixOf []
  | c :: t => pat.isPrefixOf (c :: t) || occursIn pat t

/-! ## The backtracking matcher -/

/-- Captured groups, in textual order of their opening parentheses. -/
abbrev Caps := List (List Char)

/-- A match continuation: receives the unconsumed suffix and the captures so
far, returns the captures and the suffix left after the whole match. -/
abbrev K := List Char → Caps → Option (Caps × List Char)

/-- A pattern fragment transforms the continuation of whatever follows it.
Fragments are sequenced with function composition `∘`, left one first. -/
abbrev PM := K → K

/-- First-success choice (the backtracking order of the Python engine). -/
def orElseO (a : Option α) (b : Unit → Option α) : Option α :=
  match a with
  | some v => some v
  | none => b ()

/-- A regex literal. -/
def lit (w : List Char) : PM := fun k s caps =>
  if w.isPrefixOf s then k (s.drop w.length) caps else none

/-- Try consuming `n, n-1, …, 1` characters of `s` (greedy backtracking for
a `+` quantifier over a character class). -/
def tryFrom (k : K) (s : List Char) (caps : Caps) : Nat → Option (Caps × List Char)
  | 0 => none
  | n + 1 => orElseO (k (s.drop (n + 1)) caps) fun _ => tryFrom k s caps n

/-- Greedy `cls+` (e.g. `\d+`, `\s+`, `\w+`, `[^\s]+`): longest run first,
backtracking to shorter nonempty runs. -/
def clsPlusGreedy (p : Char → Bool) : PM := fun k s caps =>
  tryFrom k s caps (s.takeWhile p).length

/-- Greedy `cls*` (e.g. `\s*`): like `cls+` but also tries the empty run. -/
def clsStarGreedy (p : Char → Bool) : PM := fun k s caps =>
  orElseO (tryFrom k s caps (s.takeWhile p).length) fun _ => k s caps

/-- A capturing group around a fragment without inner groups: the capture is
the part of the input the fragment consumed. -/
def grp (m : PM) : PM := fun k s caps =>
  m (fun rest _ => k rest (caps ++ [s.take (s.length - rest.length)])) s caps

/-- Lazy expansion for `(.+?)` / `(.*?)` under `re.DOTALL`: `acc` is the text
captured so far; each step offers one more character, shortest first. -/
def lazyAux (k : K) (caps : Caps) (acc : List Char) : List Char → Option (Caps × List Char)
  | [] => none
  | c :: rest =>
      orElseO (k rest (caps ++ [acc ++ [c]])) fun _ => lazyAux k caps (acc ++ [c]) rest

/-- The lazy group `(.+?)` with `re.DOTALL`: captures `1, 2, …` characters,
shortest first. -/
def grpLazyPlusAny : PM := fun k s caps => lazyAux k caps [] s

/-- The lazy group `(.*?)` with `re.DOTALL`: tries the empty capture first. -/
def grpLazyStarAny : PM := fun k s caps =>
  orElseO (k s (caps ++ [[]])) fun _ => lazyAux k caps [] s

/-- Try capture lengths `n, n-1, …, 0` (greedy backtracking for `(.*)`). -/
def tryFromCap (k : K) (s : List Char) (caps : Caps) : Nat → Option (Caps × List Char)
  | 0 => k s (caps ++ [[]])
  | n + 1 =>
      orElseO (k (s.drop (n + 1)) (caps ++ [s.take (n + 1)])) fun _ => tryFromCap k s caps n

/-- The greedy group `(.*)` with `re.DOTALL`: longest capture first. -/
def grpStarAnyGreedy : PM := fun k s caps => tryFromCap k s caps s.length

/-- An optional fragment (`s?`, `(?:\w+)?`): greedy, present first. -/
def opt (m : PM) : PM := fun k s caps =>
  orElseO (m k s caps) fun _ => k s caps

/-- Alternation `a|b`: left branch first. -/
def alt (a b : PM) : PM := fun k s caps =>
  orElseO (a k s caps) fun _ => b k s caps

/-- Final continuation: the match is complete. -/
def kDone : K := fun rest caps => some (caps, rest)

/-- Match the pattern at the start of `s`. -/
def matchAt (m : PM) (s : List Char) : Option (Caps × List Char) :=
  m kDone s []

/-- `re.search`: try every start position from the left, like the Python
engine (including the empty suffix at the end). -/
def reSearch (m : PM) : List Char → Option (Caps × List Char)
  | [] => matchAt m []
  | c :: t => orElseO (matchAt m (c :: t)) fun _ => reSearch m t

/-- Fuel-indexed worker for `re.findall`. -/
def reFindAllAux (m : PM) : Nat → List Char → List Caps
  | 0, _ => []
  | fuel + 1, s =>
      match reSearch m s with
      | none => []
      | some (caps, rest) =>
          if rest.length < s.length then caps :: reFindAllAux m fuel rest else [caps]

/-- `re.findall`: successive non-overlapping matches, resuming after the end
of each match.  Every pattern used below consumes at least one character per
match, so `s.length + 1` rounds of fuel always suffice and the length guard
(which mirrors Python's forced advance on an empty match) never stops the
scan early. -/
def reFindAll (m : PM) (s : List Char) : List Caps :=
  reFindAllAux m (s.length + 1) s

/-! ## The patterns of the source, one per `re.search`/`re.findall` call -/

/-- The pattern of `parse_sonarqube_summary` (line 179):
`IssueNumber \d+\.\s+(.+?):\s+(.*?)- YouTube:\s+(https?://[^\s]+)`, compiled
with `re.DOTALL`. -/
def issuePat : PM :=
  lit "IssueNumber ".data ∘ clsPlusGreedy pyIsDigit ∘ lit ".".data ∘
  clsPlusGreedy pyIsSpace ∘ grpLazyPlusAny ∘ lit ":".data ∘
  clsPlusGreedy pyIsSpace ∘ grpLazyStarAny ∘ lit "- YouTube:".data ∘
  clsPlusGreedy pyIsSpace ∘
  grp (lit "http".data ∘ opt (lit "s".data) ∘ lit "://".data ∘
       clsPlusGreedy (fun c => !pyIsSpace c))

/-- `Score:\s*(\d+)/100` (line 243 of the source). -/
def scorePat : PM :=
  lit "Score:".data ∘ clsStarGreedy pyIsSpace ∘ grp (clsPlusGreedy pyIsDigit) ∘
  lit "/100".data

/-- `Feedback:\n(.+?)\n\nSuggested Revised Code:` with `re.DOTALL` (line 244). -/
def feedbackPat : PM :=
  lit "Feedback:\n".data ∘ grpLazyPlusAny ∘ lit "\n\nSuggested Revised Code:".data

/-- `Suggested Revised Code:\n```(?:\w+)?\n(.+?)\n``` ` with `re.DOTALL`
(line 245). -/
def codePat : PM :=
  lit "Suggested Revised Code:\n```".data ∘ opt (clsPlusGreedy pyIsWord) ∘
  lit "\n".data ∘ grpLazyPlusAny ∘ lit "\n```".data

/-- `Recommended YouTube Video:\n(https?://[^\s]+)` (line 246). -/
def youtubePat : PM :=
  lit "Recommended YouTube Video:\n".data ∘
  grp (lit "http".data ∘ opt (lit "s".data) ∘ lit "://".data ∘
       clsPlusGreedy (fun c => !pyIsSpace c))

/-- `Winner:\s*(User|AI)` (line 518). -/
def winnerPat : PM :=
  lit "Winner:".data ∘ clsStarGreedy pyIsSpace ∘
  grp (alt (lit "User".data) (lit "AI".data))

/-- `Hdr:\s*(.*?)(?:\n\s*Next:)` with `re.DOTALL`, the shape of the four
section patterns of lines 520-523. -/
def sectionPat (hdr next : List Char) : PM :=
  lit hdr ∘ clsStarGreedy pyIsSpace ∘ grpLazyStarAny ∘ lit "\n".data ∘
  clsStarGreedy pyIsSpace ∘ lit next

/-- `Reason:\s*(.*)` with `re.DOTALL` (line 524). -/
def reasonPat : PM :=
  lit "Reason:".data ∘ clsStarGreedy pyIsSpace ∘ grpStarAnyGreedy

/-! ## The parsers -/

/-- One record of `parse_sonarqube_summary`'s issue list. -/
structure IssueRecord where
  name : List Char
  explanation : List Char
  link : List Char
deriving DecidableEq, Repr

/-- The dictionary `parse_sonarqube_summary` returns: `{"issues": [...]}`. -/
structure SonarSummary where
  issues : List IssueRecord
deriving DecidableEq, Repr

/-- `parse_sonarqube_summary` (lines 171-194): `findall` of `issuePat`, each
3-tuple of groups turned into a record with each field `strip()`ped. -/
def parse_sonarqube_summary (s : List Char) : SonarSummary :=
  { issues := (reFindAll issuePat s).map fun caps =>
      { name := pyStrip (caps.getD 0 [])
        explanation := pyStrip (caps.getD 1 [])
        link := pyStrip (caps.getD 2 []) } }

/-- The dictionary `parse_code_review_response` returns (lines 248-253). -/
structure CodeReviewResult where
  score : Option Int
  feedback : List Char
  revised_code : List Char
  youtube_link : Option (List Char)
deriving DecidableEq, Repr

/-- `feedback_match.group(1).strip() if feedback_match else ""` (line 250). -/
def fbField (s : List Char) : List Char :=
  match reSearch feedbackPat s with
  | some (g :: _, _) => pyStrip g
  | _ => []

/-- `code_match.group(1).strip() if code_match else ""` (line 251). -/
def rcField (s : List Char) : List Char :=
  match reSearch codePat s with
  | some (g :: _, _) => pyStrip g
  | _ => []

/-- `youtube_match.group(1).strip() if youtube_match else None` (line 252). -/
def ytField (s : List Char) : Option (List Char) :=
  match reSearch youtubePat s with
  | some (g :: _, _) => some (pyStrip g)
  | _ => none

/-- `parse_code_review_response` (lines 241-253).  The only operation in it
that can raise is `int(score_match.group(1))`; its `ValueError` is modelled
by the `Except.error` branch (proved unreachable below).  The `[]`-captures
branch models the `IndexError` of `group(1)` on a groupless match, which the
pattern makes impossible. -/
def parse_code_review_response (s : List Char) : Except (List Char) CodeReviewResult :=
  match reSearch scorePat s with
  | some (g :: _, _) =>
      match pyInt? g with
      | some n =>
          .ok { score := some n, feedback := fbField s,
                revised_code := rcField s, youtube_link := ytField s }
      | none => .error "ValueError".data
  | some ([], _) => .error "IndexError".data
  | none =>
      .ok { score := none, feedback := fbField s,
            revised_code := rcField s, youtube_link := ytField s }

/-- The six-field dictionary built by `judge_code_competition` (lines 528-536). -/
structure JudgeResult where
  winner : List Char
  user_pros : List Char
  user_cons : List Char
  ai_pros : List Char
  ai_cons : List Char
  reason : List Char
deriving DecidableEq, Repr

/-- `m.group(1).strip() if m else "[Missing]"`, the treatment of the four
bullet sections and of `reason` (lines 530-534). -/
def sectionField (m : PM) (content : List Char) : List Char :=
  match reSearch m content with
  | some (g :: _, _) => pyStrip g
  | _ => "[Missing]".data

/-- The response-parsing portion of `judge_code_competition` (lines 517-536):
five `re.search` calls over the same text, assembled into the result
dictionary with `"Unknown"` / `"[Missing]"` defaults. -/
def judge_code_competition_parse (content : List Char) : JudgeResult :=
  { winner :=
      match reSearch winnerPat content with
      | some (g :: _, _) => g
      | _ => "Unknown".data
    user_pros := sectionField (sectionPat "UserPros:".data "UserCons:".data) content
    user_cons := sectionField (sectionPat "UserCons:".data "AIPros:".data) content
    ai_pros := sectionField (sectionPat "AIPros:".data "AICons:".data) content
    ai_cons := sectionField (sectionPat "AICons:".data "Reason:".data) content
    reason := sectionField reasonPat content }

/-! ## Well-formed issue blocks (the inputs of claim C1) -/

/-- `true` iff the list is empty or starts with a character outside `p`. -/
def headNotP (p : Char → Bool) : List Char → Bool
  | [] => true
  | c :: _ => !p c

/-- `true` iff the list is empty or starts with a whitespace character. -/
def headSpaceOrNil : List Char → Bool
  | [] => true
  | c :: _ => pyIsSpace c

/-- A well-formed `IssueNumber` block, as described by the spec's Variant A
contract, in component form. -/
structure IssueBlock where
  num : List Char
  name : List Char
  expl : List Char
  secure : Bool
  upath : List Char
deriving DecidableEq, Repr

/-- The URL of a block: `http://` or `https://` followed by its path. -/
def urlOf (b : IssueBlock) : List Char :=
  (if b.secure then "https://".data else "http://".data) ++ b.upath

/-- The block text up to the end of the URL (the part the regex matches):
`IssueNumber <num>. <name>: <expl> - YouTube: <url>`. -/
def coreIssue (b : IssueBlock) : List Char :=
  "IssueNumber ".data ++ (b.num ++ (". ".data ++ (b.name ++ (": ".data ++
    (b.expl ++ (" - YouTube: ".data ++ urlOf b))))))

/-- A rendered block: the matched core followed by a newline. -/
def renderIssue (b : IssueBlock) : List Char :=
  coreIssue b ++ "\n".data

/-- A text consisting of exactly the given well-formed blocks. -/
def renderAll (bs : List IssueBlock) : List Char :=
  (bs.map renderIssue).flatten

/-- Well-formedness conditions under which a block is matched as one unit:
a nonempty digit number; a nonempty, colon-free name that does not begin
with whitespace; a nonempty explanation that does not begin with whitespace
and in which (followed by the separating space) the literal `- YouTube:`
never starts early; a nonempty whitespace-free URL path. -/
def goodBlock (b : IssueBlock) : Prop :=
  b.num ≠ [] ∧ b.num.all pyIsDigit ∧
  b.name ≠ [] ∧ ':' ∉ b.name ∧ headNotP pyIsSpace b.name = true ∧
  b.expl ≠ [] ∧ headNotP pyIsSpace b.expl = true ∧
  (∀ k < b.expl.length + 1,
    ¬ ("- YouTube:".data <+: (b.expl ++ " - YouTube:".data).drop k)) ∧
  b.upath ≠ [] ∧ b.upath.all (fun c => !pyIsSpace c)

instance (b : IssueBlock) : Decidable (goodBlock b) := by
  unfold goodBlock; infer_instance

/-! ## The `/code_review` endpoint's input handling (claim C10) -/

/-- A parsed JSON request body, as `flask.request.get_json()` yields it
(`null` becomes Python `None`). -/
inductive Json where
  | null
  | jbool (b : Bool)
  | jnum (n : Int)
  | jstr (s : List Char)
  | jarr (xs : List Json)
  | jobj (fields : List (List Char × Json))
deriving Repr

/-- Python `dict.get(key, default)` without the default: the bound value. -/
def jsonGet (key : List Char) : List (List Char × Json) → Option Json
  | [] => none
  | (k, v) :: t => if k = key then some v else jsonGet key t

/-- The observable outcome of the input-handling prefix of `code_review`
(lines 256-262 and 309-311). -/
inductive ReviewOutcome where
  | badRequest (msg : List Char)
  | serverError (msg : List Char)
  | proceed (code : List Char)
deriving DecidableEq, Repr

/-- The `/code_review` handler up to the remote call (lines 256-262), with
the surrounding `except` (lines 309-311): `data.get("code", "")` raises
`AttributeError` unless the body is a JSON object, and `code.strip()` raises
`AttributeError` unless the value is a string; either exception reaches the
handler's `except` and yields the 500-class "Unable to analyze code"
response.  An empty stripped string yields the 400-class "No code provided"
response; otherwise the handler proceeds to the remote call. -/
def code_review_request (body : Json) : ReviewOutcome :=
  match body with
  | .jobj fields =>
      match (jsonGet "code".data fields).getD (.jstr []) with
      | .jstr code =>
          if pyStrip code = [] then .badRequest "No code provided".data
          else .proceed code
      | _ => .serverError "Unable to analyze code".data
  | _ => .serverError "Unable to analyze code".data

/-! ## The polling loops (claim C9) -/

/-- The `time.sleep(2)` delay of the polling loop in
`analyze_sonarqube_with_assistant` (line 160). -/
def sonarPollDelay : Nat := 2

/-- The `time.sleep(1)` delay of the polling loop in `chat_in_thread`
(line 385). -/
def chatPollDelay : Nat := 1

/-- The `while True: … if status == "completed": break … sleep(d)` loop of
both workflows (lines 152-160 and 378-385).  `status i` is the status string
returned by the `i`-th `runs.retrieve` call; the loop is indexed by fuel so
that non-termination is the statement `∀ fuel, … = none`.  The result is the
index of the poll at which `"completed"` was observed. -/
def pollLoop (status : Nat → List Char) : Nat → Nat → Option Nat
  | 0, _ => none
  | fuel + 1, i =>
      if status i = "completed".data then some i else pollLoop status fuel (i + 1)

/-! ## Dictionary views (claim C8) -/

/-- A Python value as it appears in the result dictionaries. -/
inductive PyVal where
  | vNone
  | vInt (n : Int)
  | vStr (s : List Char)
  | vList (xs : List PyVal)
  | vDict (fields : List (List Char × PyVal))
deriving Repr

/-- Python `dict[key]` lookup on a literal dictionary. -/
def pyGet (key : List Char) : List (List Char × PyVal) → Option PyVal
  | [] => none
  | (k, v) :: t => if k = key then some v else pyGet key t

/-- The dictionary literal of lines 248-253, keyed exactly as the source. -/
def reviewDict (r : CodeReviewResult) : List (List Char × PyVal) :=
  [("score".data, r.score.elim .vNone .vInt),
   ("feedback".data, .vStr r.feedback),
   ("revised_code".data, .vStr r.revised_code),
   ("youtube_link".data, r.youtube_link.elim .vNone .vStr)]

/-- The dictionary literal of lines 528-536, keyed exactly as the source. -/
def judgeDict (j : JudgeResult) : List (List Char × PyVal) :=
  [("winner".data, .vStr j.winner),
   ("user_pros".data, .vStr j.user_pros),
   ("user_cons".data, .vStr j.user_cons),
   ("ai_pros".data, .vStr j.ai_pros),
   ("ai_cons".data, .vStr j.ai_cons),
   ("reason".data, .vStr j.reason)]

/-- The dictionary literal of lines 188-194: `{"issues": [...]}` with one
inner dictionary per record. -/
def sonarDict (p : SonarSummary) : List (List Char × PyVal) :=
  [("issues".data, .vList (p.issues.map fun i =>
      .vDict [("name".data, .vStr i.name),
              ("explanation".data, .vStr i.explanation),
              ("link".data, .vStr i.link)]))]

/-! ## Toolkit: basic facts about the matcher -/

theorem orElseO_of_some {a : Option α} {b : Unit → Option α} {v : α}
    (h : a = some v) : orElseO a b = some v := by
  subst h; rfl

theorem orElseO_of_none {a : Option α} {b : Unit → Option α}
    (h : a = none) : orElseO a b = b () := by
  subst h; rfl

theorem orElseO_eq_some {a : Option α} {b : Unit → Option α} {v : α} :
    orElseO a b = some v ↔ a = some v ∨ (a = none ∧ b () = some v) := by
  cases a <;> simp [orElseO]

theorem orElseO_eq_none {a : Option α} {b : Unit → Option α} :
    orElseO a b = none ↔ a = none ∧ b () = none := by
  cases a <;> simp [orElseO]

theorem isPrefixOf_append_self (w s : List Char) : w.isPrefixOf (w ++ s) = true := by
  rw [List.isPrefixOf_iff_prefix]; exact List.prefix_append w s

/-- Run a literal over input that starts with it. -/
theorem lit_append (w s : List Char) (k : K) (caps : Caps) :
    lit w k (w ++ s) caps = k s caps := by
  unfold lit
  rw [isPrefixOf_append_self, if_pos rfl, List.drop_left]

/-- A literal fails if the input does not start with it. -/
theorem lit_not_prefix {w s : List Char} (k : K) (caps : Caps)
    (h : ¬ w <+: s) : lit w k s caps = none := by
  unfold lit
  rw [if_neg]
  rw [List.isPrefixOf_iff_prefix]
  exact h

/-- Inversion for a literal. -/
theorem lit_inv {w s : List Char} {k : K} {caps : Caps} {v : Caps × List Char}
    (h : lit w k s caps = some v) : ∃ s₁, s = w ++ s₁ ∧ k s₁ caps = some v := by
  unfold lit at h
  by_cases hp : w.isPrefixOf s
  · rw [if_pos hp] at h
    rw [List.isPrefixOf_iff_prefix] at hp
    obtain ⟨s₁, rfl⟩ := hp
    exact ⟨s₁, rfl, by rwa [List.drop_left] at h⟩
  · rw [if_neg hp] at h
    exact absurd h (by simp)

/-- `tryFrom` succeeds at its first (largest) candidate. -/
theorem tryFrom_top {k : K} {s : List Char} {caps : Caps} {n : Nat}
    {v : Caps × List Char} (h : k (s.drop n) caps = some v) (hn : n ≠ 0) :
    tryFrom k s caps n = some v := by
  cases n with
  | zero => exact absurd rfl hn
  | succ m => exact orElseO_of_some h

/-- Inversion for `tryFrom`. -/
theorem tryFrom_inv {k : K} {s : List Char} {caps : Caps} {n : Nat}
    {v : Caps × List Char} (h : tryFrom k s caps n = some v) :
    ∃ i, 1 ≤ i ∧ i ≤ n ∧ k (s.drop i) caps = some v := by
  induction n with
  | zero => exact absurd h (by simp [tryFrom])
  | succ m ih =>
      unfold tryFrom at h
      rcases orElseO_eq_some.mp h with h1 | ⟨_, h2⟩
      · exact ⟨m + 1, by omega, Nat.le_refl _, h1⟩
      · obtain ⟨i, h1, h2, h3⟩ := ih h2
        exact ⟨i, h1, by omega, h3⟩

/-- `tryFrom` fails if every candidate fails. -/
theorem tryFrom_none {k : K} {s : List Char} {caps : Caps} {n : Nat}
    (h : ∀ i, 1 ≤ i → i ≤ n → k (s.drop i) caps = none) :
    tryFrom k s caps n = none := by
  induction n with
  | zero => rfl
  | succ m ih =>
      unfold tryFrom
      rw [orElseO_of_none (h (m + 1) (by omega) (Nat.le_refl _))]
      exact ih fun i h1 h2 => h i h1 (by omega)

/-- `takeWhile` on `run ++ s` is `run` when `run` is a maximal `p`-run. -/
theorem takeWhile_run (p : Char → Bool) (run s : List Char)
    (hrun : ∀ c ∈ run, p c) (hs : headNotP p s = true) :
    (run ++ s).takeWhile p = run := by
  induction run with
  | nil =>
      simp only [List.nil_append]
      cases s with
      | nil => rfl
      | cons c t =>
          simp only [headNotP, Bool.not_eq_true'] at hs
          simp [List.takeWhile_cons, hs]
  | cons c t ih =>
      simp only [List.cons_append, List.takeWhile_cons,
        hrun c (List.mem_cons_self c t)]
      simp [ih fun x hx => hrun x (List.mem_cons_of_mem c hx)]

/-- Greedy `cls+` succeeds without backtracking when the continuation accepts
the split at the maximal run. -/
theorem clsPlusGreedy_run {p : Char → Bool} {k : K} {caps : Caps}
    {run s : List Char} {v : Caps × List Char}
    (hne : run ≠ []) (hrun : ∀ c ∈ run, p c) (hs : headNotP p s = true)
    (hk : k s caps = some v) :
    clsPlusGreedy p k (run ++ s) caps = some v := by
  unfold clsPlusGreedy
  rw [takeWhile_run p run s hrun hs]
  have hd : (run ++ s).drop run.length = s := List.drop_left run s
  exact tryFrom_top (by rwa [hd]) (by simpa using hne)

/-- Greedy `cls*` succeeds without backtracking when the continuation accepts
the split at the maximal (possibly empty) run. -/
theorem clsStarGreedy_run {p : Char → Bool} {k : K} {caps : Caps}
    {run s : List Char} {v : Caps × List Char}
    (hrun : ∀ c ∈ run, p c) (hs : headNotP p s = true)
    (hk : k s caps = some v) :
    clsStarGreedy p k (run ++ s) caps = some v := by
  unfold clsStarGreedy
  rw [takeWhile_run p run s hrun hs]
  cases hrn : run with
  | nil =>
      subst hrn
      rw [orElseO_of_none (by rfl)]
      simpa using hk
  | cons c t =>
      subst hrn
      have hd : ((c :: t) ++ s).drop (c :: t).length = s := List.drop_left _ s
      exact orElseO_of_some (tryFrom_top (by rwa [hd]) (by simp))

/-- Inversion for `clsPlusGreedy`: the consumed part is a nonempty `p`-run. -/
theorem clsPlusGreedy_inv {p : Char → Bool} {k : K} {caps : Caps}
    {s : List Char} {v : Caps × List Char}
    (h : clsPlusGreedy p k s caps = some v) :
    ∃ i, 1 ≤ i ∧ i ≤ s.length ∧ (∀ c ∈ s.take i, p c) ∧ k (s.drop i) caps = some v := by
  obtain ⟨i, h1, h2, h3⟩ := tryFrom_inv h
  have hlen : (s.takeWhile p).length ≤ s.length :=
    (List.takeWhile_prefix p).length_le
  refine ⟨i, h1, by omega, fun c hc => ?_, h3⟩
  obtain ⟨u, hu⟩ := List.takeWhile_prefix p (l := s)
  have htake : s.take i = (s.takeWhile p).take i := by
    conv_lhs => rw [← hu]
    rw [List.take_append_of_le_length h2]
  rw [htake] at hc
  exact List.mem_takeWhile_imp (List.take_subset i _ hc)

/-- Inversion for `clsStarGreedy`: the consumed part is a (possibly empty)
`p`-run. -/
theorem clsStarGreedy_inv {p : Char → Bool} {k : K} {caps : Caps}
    {s : List Char} {v : Caps × List Char}
    (h : clsStarGreedy p k s caps = some v) :
    ∃ i, i ≤ s.length ∧ (∀ c ∈ s.take i, p c) ∧ k (s.drop i) caps = some v := by
  rcases orElseO_eq_some.mp h with h1 | ⟨_, h2⟩
  · obtain ⟨i, _, h2, h3, h4⟩ := clsPlusGreedy_inv h1
    exact ⟨i, h2, h3, h4⟩
  · exact ⟨0, Nat.zero_le _, by simp, by simpa using h2⟩

/-- The lazy expansion stops at the first split its continuation accepts. -/
theorem lazyAux_app {k : K} {caps : Caps} {v : Caps × List Char} :
    ∀ (g acc s₁ : List Char), g ≠ [] →
    (∀ g₁ g₂, g = g₁ ++ g₂ → g₁ ≠ [] → g₂ ≠ [] →
      k (g₂ ++ s₁) (caps ++ [acc ++ g₁]) = none) →
    k s₁ (caps ++ [acc ++ g]) = some v →
    lazyAux k caps acc (g ++ s₁) = some v := by
  intro g
  induction g with
  | nil => intro acc s₁ hne _ _; exact absurd rfl hne
  | cons c g₂ ih =>
      intro acc s₁ _ hfail hk
      cases hg₂ : g₂ with
      | nil =>
          subst hg₂
          simp only [List.cons_append, List.nil_append, lazyAux]
          exact orElseO_of_some (by simpa using hk)
      | cons d g₃ =>
          subst hg₂
          simp only [List.cons_append, lazyAux]
          rw [orElseO_of_none
            (by simpa using hfail [c] (d :: g₃) (by simp) (by simp) (by simp))]
          apply ih (acc ++ [c]) s₁ (by simp)
          · intro g₄ g₅ he h4 h5
            have := hfail (c :: g₄) g₅ (by simp [he]) (by simp) h5
            simpa [List.append_assoc] using this
          · simpa [List.append_assoc] using hk

/-- Inversion for the lazy expansion. -/
theorem lazyAux_inv {k : K} {caps : Caps} {v : Caps × List Char} :
    ∀ (s acc : List Char), lazyAux k caps acc s = some v →
    ∃ g s₁, s = g ++ s₁ ∧ g ≠ [] ∧ k s₁ (caps ++ [acc ++ g]) = some v := by
  intro s
  induction s with
  | nil => intro acc h; exact absurd h (by simp [lazyAux])
  | cons c t ih =>
      intro acc h
      simp only [lazyAux] at h
      rcases orElseO_eq_some.mp h with h1 | ⟨_, h2⟩
      · exact ⟨[c], t, rfl, by simp, h1⟩
      · obtain ⟨g, s₁, he, hne, hk⟩ := ih (acc ++ [c]) h2
        exact ⟨c :: g, s₁, by simp [he], by simp,
          by simpa [List.append_assoc] using hk⟩

/-- `(.+?)` stops at the first split its continuation accepts. -/
theorem grpLazyPlusAny_app {k : K} {caps : Caps} {v : Caps × List Char}
    {g s₁ : List Char} (hne : g ≠ [])
    (hfail : ∀ g₁ g₂, g = g₁ ++ g₂ → g₁ ≠ [] → g₂ ≠ [] →
      k (g₂ ++ s₁) (caps ++ [g₁]) = none)
    (hk : k s₁ (caps ++ [g]) = some v) :
    grpLazyPlusAny k (g ++ s₁) caps = some v := by
  unfold grpLazyPlusAny
  apply lazyAux_app g [] s₁ hne
  · intro g₁ g₂ he h1 h2; simpa using hfail g₁ g₂ he h1 h2
  · simpa using hk

/-- Inversion for `(.+?)`. -/
theorem grpLazyPlusAny_inv {k : K} {caps : Caps} {v : Caps × List Char}
    {s : List Char} (h : grpLazyPlusAny k s caps = some v) :
    ∃ g s₁, s = g ++ s₁ ∧ g ≠ [] ∧ k s₁ (caps ++ [g]) = some v := by
  obtain ⟨g, s₁, he, hne, hk⟩ := lazyAux_inv s [] h
  exact ⟨g, s₁, he, hne, by simpa using hk⟩

/-- `(.*?)` with an accepted empty capture. -/
theorem grpLazyStarAny_nil {k : K} {caps : Caps} {v : Caps × List Char}
    {s : List Char} (hk : k s (caps ++ [[]]) = some v) :
    grpLazyStarAny k s caps = some v :=
  orElseO_of_some hk

/-- `(.*?)` when the empty capture is rejected: behaves like `(.+?)`. -/
theorem grpLazyStarAny_pos {k : K} {caps : Caps} {v : Caps × List Char}
    {g s₁ : List Char} (hne : g ≠ [])
    (h0 : k (g ++ s₁) (caps ++ [[]]) = none)
    (hfail : ∀ g₁ g₂, g = g₁ ++ g₂ → g₁ ≠ [] → g₂ ≠ [] →
      k (g₂ ++ s₁) (caps ++ [g₁]) = none)
    (hk : k s₁ (caps ++ [g]) = some v) :
    grpLazyStarAny k (g ++ s₁) caps = some v := by
  unfold grpLazyStarAny
  rw [orElseO_of_none h0]
  apply lazyAux_app g [] s₁ hne
  · intro g₁ g₂ he h1 h2; simpa using hfail g₁ g₂ he h1 h2
  · simpa using hk

/-- Inversion for `(.*?)`. -/
theorem grpLazyStarAny_inv {k : K} {caps : Caps} {v : Caps × List Char}
    {s : List Char} (h : grpLazyStarAny k s caps = some v) :
    ∃ g s₁, s = g ++ s₁ ∧ k s₁ (caps ++ [g]) = some v := by
  rcases orElseO_eq_some.mp h with h1 | ⟨_, h2⟩
  · exact ⟨[], s, by simp, h1⟩
  · obtain ⟨g, s₁, he, _, hk⟩ := lazyAux_inv s [] h2
    exact ⟨g, s₁, he, by simpa using hk⟩

/-- Inversion for `tryFromCap`. -/
theorem tryFromCap_inv {k : K} {s : List Char} {caps : Caps} {n : Nat}
    {v : Caps × List Char} (h : tryFromCap k s caps n = some v) :
    ∃ i, i ≤ n ∧ k (s.drop i) (caps ++ [s.take i]) = some v := by
  induction n with
  | zero => exact ⟨0, Nat.le_refl _, by simpa using h⟩
  | succ m ih =>
      unfold tryFromCap at h
      rcases orElseO_eq_some.mp h with h1 | ⟨_, h2⟩
      · exact ⟨m + 1, Nat.le_refl _, h1⟩
      · obtain ⟨i, h1, h2⟩ := ih h2
        exact ⟨i, by omega, h2⟩

/-- `(.*)` takes everything when its continuation accepts the full input. -/
theorem grpStarAnyGreedy_all {k : K} {caps : Caps} {v : Caps × List Char}
    {s : List Char} (hk : k [] (caps ++ [s]) = some v) :
    grpStarAnyGreedy k s caps = some v := by
  unfold grpStarAnyGreedy
  cases hs : s with
  | nil => subst hs; simpa using hk
  | cons c t =>
      subst hs
      exact orElseO_of_some (by simpa using hk)

/-- Inversion for `opt`. -/
theorem opt_inv {m : PM} {k : K} {caps : Caps} {s : List Char}
    {v : Caps × List Char} (h : opt m k s caps = some v) :
    m k s caps = some v ∨ (m k s caps = none ∧ k s caps = some v) := by
  simpa [opt] using orElseO_eq_some.mp h

/-- Inversion for `alt`. -/
theorem alt_inv {a b : PM} {k : K} {caps : Caps} {s : List Char}
    {v : Caps × List Char} (h : alt a b k s caps = some v) :
    a k s caps = some v ∨ (a k s caps = none ∧ b k s caps = some v) := by
  simpa [alt] using orElseO_eq_some.mp h

/-- The capture arithmetic of `grp`: the consumed prefix. -/
theorem take_consumed (a b : List Char) :
    (a ++ b).take ((a ++ b).length - b.length) = a := by
  rw [List.length_append, Nat.add_sub_cancel]
  exact List.take_left a b

/-- A match found at the start is the search result. -/
theorem reSearch_of_matchAt {m : PM} {s : List Char} {v : Caps × List Char}
    (h : matchAt m s = some v) : reSearch m s = some v := by
  cases s with
  | nil => exact h
  | cons c t => exact orElseO_of_some h

/-- The search skips a position where no match starts. -/
theorem reSearch_cons_none {m : PM} {c : Char} {t : List Char}
    (h : matchAt m (c :: t) = none) : reSearch m (c :: t) = reSearch m t := by
  simp only [reSearch]
  rw [orElseO_of_none h]

/-- Inversion for the search: a match starts at some position, and no match
starts earlier. -/
theorem reSearch_inv {m : PM} {s : List Char} {v : Caps × List Char}
    (h : reSearch m s = some v) :
    ∃ i, matchAt m (s.drop i) = some v ∧ ∀ j < i, matchAt m (s.drop j) = none := by
  induction s with
  | nil => exact ⟨0, h, by omega⟩
  | cons c t ih =>
      simp only [reSearch] at h
      rcases orElseO_eq_some.mp h with h1 | ⟨h0, h2⟩
      · exact ⟨0, h1, by omega⟩
      · obtain ⟨i, h3, h4⟩ := ih h2
        refine ⟨i + 1, h3, fun j hj => ?_⟩
        cases j with
        | zero => exact h0
        | succ j₁ => exact h4 j₁ (by omega)

/-- A pattern that begins with a literal cannot match anywhere in a text in
which the literal does not occur. -/
theorem reSearch_lit_none {w : List Char} (m : PM) (hw : w ≠ [])
    {s : List Char} (h : occursIn w s = false) : reSearch (lit w ∘ m) s = none := by
  induction s with
  | nil =>
      show lit w (m kDone) [] [] = none
      apply lit_not_prefix
      intro hp
      exact hw (List.prefix_nil.mp hp)
  | cons c t ih =>
      simp only [occursIn, Bool.or_eq_false_iff] at h
      have hm : matchAt (lit w ∘ m) (c :: t) = none := by
        show lit w (m kDone) (c :: t) [] = none
        apply lit_not_prefix
        intro hp
        rw [← List.isPrefixOf_iff_prefix] at hp
        rw [hp] at h
        exact absurd h.1 (by simp)
      rw [reSearch_cons_none hm]
      exact ih h.2

/-! ## Toolkit: `strip` and character-class facts -/

theorem dropWhile_of_headNot (p : Char → Bool) (l : List Char)
    (h : headNotP p l = true) : l.dropWhile p = l := by
  cases l with
  | nil => rfl
  | cons c t =>
      simp only [headNotP, Bool.not_eq_true'] at h
      simp [List.dropWhile_cons, h]

theorem headNotP_of_all {p : Char → Bool} {l : List Char}
    (h : ∀ c ∈ l, p c = false) : headNotP p l = true := by
  cases l with
  | nil => rfl
  | cons c t => simp [headNotP, h c (List.mem_cons_self c t)]

/-- `strip` is the identity on strings with no whitespace at all. -/
theorem pyStrip_of_all_nonspace {l : List Char}
    (h : ∀ c ∈ l, pyIsSpace c = false) : pyStrip l = l := by
  unfold pyStrip
  rw [dropWhile_of_headNot _ _ (headNotP_of_all h),
      dropWhile_of_headNot _ _ (headNotP_of_all fun c hc => h c (List.mem_reverse.mp hc)),
      List.reverse_reverse]

/-- A trailing blank is invisible to `strip`. -/
theorem pyStrip_append_space (x : List Char) : pyStrip (x ++ [' ']) = pyStrip x := by
  unfold pyStrip
  rw [List.dropWhile_append]
  cases hx : (x.dropWhile pyIsSpace).isEmpty
  · simp only [Bool.false_eq_true, if_false]
    rw [List.reverse_append]
    simp [List.dropWhile_cons, pyIsSpace]
  · simp only [if_true]
    rw [List.isEmpty_iff] at hx
    rw [hx]
    simp [List.dropWhile_cons, pyIsSpace]

theorem space_not_digit {c : Char} (h : pyIsSpace c = true) : pyIsDigit c = false := by
  simp only [pyIsSpace, Bool.or_eq_true, decide_eq_true_eq] at h
  rcases h with ((((h | h) | h) | h) | h) | h <;> subst h <;> decide

theorem digit_not_space {c : Char} (h : pyIsDigit c = true) : pyIsSpace c = false := by
  cases hs : pyIsSpace c
  · rfl
  · rw [space_not_digit hs] at h
    exact absurd h (by simp)

/-- The digits captured by `(\d+)` always satisfy `int()`. -/
theorem pyInt?_of_digits {l : List Char} (hne : l ≠ [])
    (hd : ∀ c ∈ l, pyIsDigit c = true) : pyInt? l = some (digitsVal l) := by
  unfold pyInt?
  rw [if_pos ⟨hne, List.all_eq_true.mpr fun c hc => hd c hc⟩]

/-! ## The claims -/

/-- C2: on the spec's Variant B example input, `parse_code_review_response`
returns score 87, feedback "Good job", revised code "print(1)" and the
YouTube link "https://example.com/x". -/
theorem claim_C2 :
    parse_code_review_response ("Score: 87/100\nFeedback:\nGood job\n\nSuggested Revised Code:\n```\nprint(1)\n```\nRecommended YouTube Video:\nhttps://example.com/x").data =
      .ok { score := some 87, feedback := "Good job".data,
            revised_code := "print(1)".data,
            youtube_link := some "https://example.com/x".data } := by
  rfl

/-- C9: both polling loops exit only when the status `"completed"` is
observed; if no poll ever returns `"completed"`, no amount of fuel makes the
loop terminate (the caller blocks forever); and the fixed inter-poll delays
of the two workflows are 1-2 time units (`time.sleep(2)` and
`time.sleep(1)`). -/
theorem claim_C9 :
    (∀ (status : Nat → List Char) (fuel i j : Nat),
        pollLoop status fuel i = some j → status j = "completed".data) ∧
    (∀ status : Nat → List Char, (∀ i, status i ≠ "completed".data) →
        ∀ fuel i, pollLoop status fuel i = none) ∧
    (1 ≤ sonarPollDelay ∧ sonarPollDelay ≤ 2 ∧
     1 ≤ chatPollDelay ∧ chatPollDelay ≤ 2) := by
  refine ⟨?_, ?_, by decide⟩
  · intro status fuel
    induction fuel with
    | zero => intro i j h; exact absurd h (by simp [pollLoop])
    | succ f ih =>
        intro i j h
        simp only [pollLoop] at h
        by_cases hc : status i = "completed".data
        · rw [if_pos hc] at h; cases h; exact hc
        · rw [if_neg hc] at h; exact ih _ _ h
  · intro status hst fuel
    induction fuel with
    | zero => intro i; rfl
    | succ f ih =>
        intro i
        simp only [pollLoop]
        rw [if_neg (hst i)]
        exact ih _

/-- Witness for C9: a stream that completes at poll 3 exits there, and a
stream that never completes exhausts any fuel. -/
theorem claim_C9_witness :
    (fun i : Nat => if i = 3 then "completed".data else "in_progress".data) 3 =
      "completed".data ∧
    pollLoop (fun _ : Nat => "in_progress".data) 5 0 = none :=
  ⟨claim_C9.1 (fun i : Nat => if i = 3 then "completed".data else "in_progress".data)
      10 0 3 (by decide),
   claim_C9.2.1 (fun _ : Nat => "in_progress".data)
      (fun _ => by show "in_progress".data ≠ "completed".data; decide) 5 0⟩

/-- C10 counterexample: the body `{}` is a JSON object with no "code" field
at all, yet the handler produces the 400-class "No code provided" response
(via the `data.get("code", "")` default), so the 400 response is not produced
only when a "code" field holding an empty/whitespace string is present. -/
theorem claim_C10_counterexample :
    code_review_request (Json.jobj []) =
      ReviewOutcome.badRequest "No code provided".data ∧
    jsonGet "code".data [] = none :=
  ⟨rfl, rfl⟩

/-- C10 amended: the 400-class "No code provided" response is produced
exactly when the body is a JSON object whose "code" field is absent
(defaulted to the empty string) or is a string that strips to empty; a JSON
null body, or a "code" value that is not a string, makes the handler raise
internally and yields the 500-class "Unable to analyze code" response. -/
theorem claim_C10 (body : Json) :
    (code_review_request body = ReviewOutcome.badRequest "No code provided".data ↔
      ∃ fields, body = Json.jobj fields ∧
        (jsonGet "code".data fields = none ∨
         ∃ s, jsonGet "code".data fields = some (Json.jstr s) ∧ pyStrip s = [])) ∧
    (body = Json.null →
      code_review_request body = ReviewOutcome.serverError "Unable to analyze code".data) ∧
    (∀ fields v, body = Json.jobj fields → jsonGet "code".data fields = some v →
      (∀ s, v ≠ Json.jstr s) →
      code_review_request body = ReviewOutcome.serverError "Unable to analyze code".data) := by
  refine ⟨⟨?_, ?_⟩, ?_, ?_⟩
  · intro h
    cases body with
    | jobj fields =>
        refine ⟨fields, rfl, ?_⟩
        cases hg : jsonGet "code".data fields with
        | none => exact Or.inl rfl
        | some v =>
            cases v with
            | jstr s =>
                refine Or.inr ⟨s, rfl, ?_⟩
                simp only [code_review_request, hg, Option.getD_some] at h
                by_cases hs : pyStrip s = []
                · exact hs
                · rw [if_neg hs] at h
                  exact absurd h (by simp)
            | null => simp [code_review_request, hg] at h
            | jbool b => simp [code_review_request, hg] at h
            | jnum n => simp [code_review_request, hg] at h
            | jarr xs => simp [code_review_request, hg] at h
            | jobj f2 => simp [code_review_request, hg] at h
    | null => simp [code_review_request] at h
    | jbool b => simp [code_review_request] at h
    | jnum n => simp [code_review_request] at h
    | jstr s => simp [code_review_request] at h
    | jarr xs => simp [code_review_request] at h
  · rintro ⟨fields, rfl, hc | ⟨s, hg, hs⟩⟩
    · simp [code_review_request, hc, pyStrip]
    · simp [code_review_request, hg, hs]
  · rintro rfl; rfl
  · rintro fields v rfl hg hv
    cases v with
    | jstr s => exact absurd rfl (hv s)
    | null => simp [code_review_request, hg]
    | jbool b => simp [code_review_request, hg]
    | jnum n => simp [code_review_request, hg]
    | jarr xs => simp [code_review_request, hg]
    | jobj f2 => simp [code_review_request, hg]

/-- Witness for C10: a numeric "code" value and a null body both yield the
500-class response. -/
theorem claim_C10_witness :
    code_review_request (Json.jobj [("code".data, Json.jnum 5)]) =
      ReviewOutcome.serverError "Unable to analyze code".data ∧
    code_review_request Json.null =
      ReviewOutcome.serverError "Unable to analyze code".data :=
  ⟨(claim_C10 (Json.jobj [("code".data, Json.jnum 5)])).2.2
      [("code".data, Json.jnum 5)] (Json.jnum 5) rfl rfl
      (fun s h => Json.noConfusion h),
   (claim_C10 Json.null).2.1 rfl⟩

/-- C5: the four extractions of `parse_code_review_response` are independent:
whenever the function returns (it never errors, see C7), the score is `None`
exactly on inputs in which the score pattern finds no match, and each of the
other three fields equals its own free-standing extraction of the same text,
so the failure of one extraction never blocks the others. -/
theorem claim_C5 (s : List Char) (r : CodeReviewResult)
    (h : parse_code_review_response s = .ok r) :
    (reSearch scorePat s = none → r.score = none) ∧
    r.feedback = fbField s ∧
    r.revised_code = rcField s ∧
    r.youtube_link = ytField s := by
  unfold parse_code_review_response at h
  split at h
  · next g gs rest hs =>
      split at h
      · next n hn =>
          cases h
          refine ⟨fun hc => ?_, rfl, rfl, rfl⟩
          rw [hc] at hs
          exact Option.noConfusion hs
      · exact Except.noConfusion h
  · exact Except.noConfusion h
  · cases h
    exact ⟨fun _ => rfl, rfl, rfl, rfl⟩

/-- Witness for C5: the Variant B example without its `Score:` line. -/
theorem claim_C5_witness :
    ({ score := none, feedback := "Good job".data, revised_code := "print(1)".data,
       youtube_link := some "https://example.com/x".data } : CodeReviewResult).feedback =
      fbField ("Feedback:\nGood job\n\nSuggested Revised Code:\n```\nprint(1)\n```\nRecommended YouTube Video:\nhttps://example.com/x").data :=
  (claim_C5 ("Feedback:\nGood job\n\nSuggested Revised Code:\n```\nprint(1)\n```\nRecommended YouTube Video:\nhttps://example.com/x").data
    { score := none, feedback := "Good job".data, revised_code := "print(1)".data,
      youtube_link := some "https://example.com/x".data } rfl).2.1

/-- Looking up any key of a literal dictionary resolves to a value. -/
theorem pyGet_isSome_of_mem {key : List Char} :
    ∀ d : List (List Char × PyVal), key ∈ d.map Prod.fst →
      (pyGet key d).isSome = true := by
  intro d
  induction d with
  | nil => intro h; simp at h
  | cons kv t ih =>
      obtain ⟨k, v⟩ := kv
      intro h
      by_cases hk : k = key
      · simp [pyGet, hk]
      · simp only [pyGet, if_neg hk]
        apply ih
        simp only [List.map_cons, List.mem_cons] at h
        rcases h with h | h
        · exact absurd h.symm hk
        · exact h

/-- C8: every result dictionary has a fixed, complete key set — the
code-review dictionary has exactly the four keys score, feedback,
revised_code, youtube_link; the judge dictionary exactly the six keys
winner, user_pros, user_cons, ai_pros, ai_cons, reason; the SonarQube
dictionary the key issues — and every lookup of a listed key resolves to a
value (an extracted value or the missing-sentinel), never absent. -/
theorem claim_C8 (s : List Char) (r : CodeReviewResult)
    (h : parse_code_review_response s = .ok r) :
    (reviewDict r).map Prod.fst =
      ["score".data, "feedback".data, "revised_code".data, "youtube_link".data] ∧
    (judgeDict (judge_code_competition_parse s)).map Prod.fst =
      ["winner".data, "user_pros".data, "user_cons".data,
       "ai_pros".data, "ai_cons".data, "reason".data] ∧
    (sonarDict (parse_sonarqube_summary s)).map Prod.fst = ["issues".data] ∧
    (∀ key, key ∈ (reviewDict r).map Prod.fst →
      (pyGet key (reviewDict r)).isSome = true) ∧
    (∀ key, key ∈ (judgeDict (judge_code_competition_parse s)).map Prod.fst →
      (pyGet key (judgeDict (judge_code_competition_parse s))).isSome = true) ∧
    (∀ key, key ∈ (sonarDict (parse_sonarqube_summary s)).map Prod.fst →
      (pyGet key (sonarDict (parse_sonarqube_summary s))).isSome = true) :=
  ⟨rfl, rfl, rfl,
   fun _ hk => pyGet_isSome_of_mem _ hk,
   fun _ hk => pyGet_isSome_of_mem _ hk,
   fun _ hk => pyGet_isSome_of_mem _ hk⟩

/-- Witness for C8 at a concrete parsed input. -/
theorem claim_C8_witness :
    (reviewDict { score := none, feedback := [], revised_code := [],
                  youtube_link := none }).map Prod.fst =
      ["score".data, "feedback".data, "revised_code".data, "youtube_link".data] :=
  (claim_C8 "x".data
    { score := none, feedback := [], revised_code := [], youtube_link := none }
    rfl).1

/-- Soundness of the score pattern: any successful search captures exactly
one group, a nonempty digit string. -/
theorem scorePat_sound {s : List Char} {caps : Caps} {rest : List Char}
    (h : reSearch scorePat s = some (caps, rest)) :
    ∃ g, caps = [g] ∧ g ≠ [] ∧ ∀ c ∈ g, pyIsDigit c = true := by
  obtain ⟨i, hm, -⟩ := reSearch_inv h
  have hm2 : lit "Score:".data
      (clsStarGreedy pyIsSpace
        (grp (clsPlusGreedy pyIsDigit) (lit "/100".data kDone)))
      (s.drop i) [] = some (caps, rest) := hm
  obtain ⟨s₁, -, h1⟩ := lit_inv hm2
  obtain ⟨i₁, -, -, h2⟩ := clsStarGreedy_inv h1
  have h3 : clsPlusGreedy pyIsDigit
      (fun rest2 _ => lit "/100".data kDone rest2
        ([] ++ [(s₁.drop i₁).take ((s₁.drop i₁).length - rest2.length)]))
      (s₁.drop i₁) [] = some (caps, rest) := h2
  obtain ⟨j, hj1, hj2, hdig, h4⟩ := clsPlusGreedy_inv h3
  obtain ⟨s₂, hs₂, h5⟩ := lit_inv h4
  simp only [kDone, List.nil_append, Option.some.injEq, Prod.mk.injEq] at h5
  obtain ⟨hcaps, -⟩ := h5
  have hlen : (s₁.drop i₁).length - ((s₁.drop i₁).drop j).length = j := by
    have := List.length_drop j (s₁.drop i₁)
    omega
  rw [hlen] at hcaps
  refine ⟨(s₁.drop i₁).take j, hcaps.symm, ?_, hdig⟩
  intro hnil
  rcases List.take_eq_nil_iff.mp hnil with h0 | h0
  · omega
  · rw [h0] at hj2
    simp at hj2
    omega

/-- Soundness of the winner pattern: the single capture is the literal
`User` or `AI`. -/
theorem winnerPat_sound {s : List Char} {caps : Caps} {rest : List Char}
    (h : reSearch winnerPat s = some (caps, rest)) :
    ∃ g, caps = [g] ∧ (g = "User".data ∨ g = "AI".data) := by
  obtain ⟨i, hm, -⟩ := reSearch_inv h
  have hm2 : lit "Winner:".data
      (clsStarGreedy pyIsSpace
        (grp (alt (lit "User".data) (lit "AI".data)) kDone))
      (s.drop i) [] = some (caps, rest) := hm
  obtain ⟨s₁, -, h1⟩ := lit_inv hm2
  obtain ⟨i₁, -, -, h2⟩ := clsStarGreedy_inv h1
  have h3 : alt (lit "User".data) (lit "AI".data)
      (fun rest2 _ => kDone rest2
        ([] ++ [(s₁.drop i₁).take ((s₁.drop i₁).length - rest2.length)]))
      (s₁.drop i₁) [] = some (caps, rest) := h2
  rcases alt_inv h3 with h4 | ⟨-, h4⟩
  · obtain ⟨s₂, hs₂, h5⟩ := lit_inv h4
    simp only [kDone, List.nil_append, Option.some.injEq, Prod.mk.injEq] at h5
    obtain ⟨hcaps, -⟩ := h5
    rw [hs₂, take_consumed] at hcaps
    exact ⟨"User".data, hcaps.symm, Or.inl rfl⟩
  · obtain ⟨s₂, hs₂, h5⟩ := lit_inv h4
    simp only [kDone, List.nil_append, Option.some.injEq, Prod.mk.injEq] at h5
    obtain ⟨hcaps, -⟩ := h5
    rw [hs₂, take_consumed] at hcaps
    exact ⟨"AI".data, hcaps.symm, Or.inr rfl⟩

/-- C7: every parsing variant returns a result on every input string — the
code-review parser never reaches its error branches (the captured score is
always a valid `int()` argument), the judge parser always produces a winner
in {Unknown, User, AI}, and the SonarQube parser always produces an issue
list; all three are pure functions of the text. -/
theorem claim_C7 (s : List Char) :
    (∃ r, parse_code_review_response s = .ok r) ∧
    ((judge_code_competition_parse s).winner = "Unknown".data ∨
     (judge_code_competition_parse s).winner = "User".data ∨
     (judge_code_competition_parse s).winner = "AI".data) ∧
    (∃ l, parse_sonarqube_summary s = { issues := l }) := by
  refine ⟨?_, ?_, ⟨_, rfl⟩⟩
  · cases hs : reSearch scorePat s with
    | none =>
        refine ⟨{ score := none, feedback := fbField s, revised_code := rcField s,
                  youtube_link := ytField s }, ?_⟩
        simp only [parse_code_review_response, hs]
    | some v =>
        obtain ⟨caps, rest⟩ := v
        obtain ⟨g, hcaps, hne, hdig⟩ := scorePat_sound hs
        subst hcaps
        refine ⟨{ score := some (digitsVal g), feedback := fbField s,
                  revised_code := rcField s, youtube_link := ytField s }, ?_⟩
        simp only [parse_code_review_response, hs, pyInt?_of_digits hne hdig]
  · cases hs : reSearch winnerPat s with
    | none =>
        left
        simp only [judge_code_competition_parse, hs]
    | some v =>
        obtain ⟨caps, rest⟩ := v
        obtain ⟨g, hcaps, hg⟩ := winnerPat_sound hs
        subst hcaps
        rcases hg with hg | hg <;> subst hg
        · right; left; simp only [judge_code_competition_parse, hs]
        · right; right; simp only [judge_code_competition_parse, hs]

/-- C6: on any judge response in which the literal `Reason:` never occurs,
the reason field is the placeholder `"[Missing]"` while the winner is still
extracted as usual: it is the captured literal `User` or `AI` when the
winner pattern matches and `"Unknown"` when it does not; likewise each of
the four bullet sections whose pattern finds no match yields the literal
placeholder `"[Missing]"` rather than a null. -/
theorem claim_C6 (s : List Char) (h : occursIn "Reason:".data s = false) :
    (judge_code_competition_parse s).reason = "[Missing]".data ∧
    (reSearch winnerPat s = none →
      (judge_code_competition_parse s).winner = "Unknown".data) ∧
    (∀ caps rest, reSearch winnerPat s = some (caps, rest) →
      ∃ g, caps = [g] ∧ (g = "User".data ∨ g = "AI".data) ∧
        (judge_code_competition_parse s).winner = g) ∧
    (reSearch (sectionPat "UserPros:".data "UserCons:".data) s = none →
      (judge_code_competition_parse s).user_pros = "[Missing]".data) ∧
    (reSearch (sectionPat "UserCons:".data "AIPros:".data) s = none →
      (judge_code_competition_parse s).user_cons = "[Missing]".data) ∧
    (reSearch (sectionPat "AIPros:".data "AICons:".data) s = none →
      (judge_code_competition_parse s).ai_pros = "[Missing]".data) ∧
    (reSearch (sectionPat "AICons:".data "Reason:".data) s = none →
      (judge_code_competition_parse s).ai_cons = "[Missing]".data) := by
  have hre : reSearch reasonPat s = none :=
    reSearch_lit_none (clsStarGreedy pyIsSpace ∘ grpStarAnyGreedy) (by decide) h
  refine ⟨?_, ?_, ?_, ?_, ?_, ?_, ?_⟩
  · simp only [judge_code_competition_parse, sectionField, hre]
  · intro hw
    simp only [judge_code_competition_parse, hw]
  · intro caps rest hw
    obtain ⟨g, hcaps, hg⟩ := winnerPat_sound hw
    subst hcaps
    exact ⟨g, rfl, hg, by simp only [judge_code_competition_parse, hw]⟩
  · intro hp; simp only [judge_code_competition_parse, sectionField, hp]
  · intro hp; simp only [judge_code_competition_parse, sectionField, hp]
  · intro hp; simp only [judge_code_competition_parse, sectionField, hp]
  · intro hp; simp only [judge_code_competition_parse, sectionField, hp]

/-- Witness for C6: a judge response with a winner but no `Reason:` section. -/
theorem claim_C6_witness :
    occursIn "Reason:".data
      "Winner: User\nUserPros:\n--- a\nUserCons:\n--- b".data = false ∧
    (judge_code_competition_parse
      "Winner: User\nUserPros:\n--- a\nUserCons:\n--- b".data).reason =
      "[Missing]".data :=
  ⟨by decide,
   (claim_C6 "Winner: User\nUserPros:\n--- a\nUserCons:\n--- b".data (by decide)).1⟩

/-- The search skips a prefix at none of whose positions the pattern's
leading literal occurs. -/
theorem reSearch_skip_prefix {w : List Char} (m : PM) :
    ∀ (pre t : List Char),
    (∀ i < pre.length, ¬ (w <+: (pre ++ t).drop i)) →
    reSearch (lit w ∘ m) (pre ++ t) = reSearch (lit w ∘ m) t := by
  intro pre
  induction pre with
  | nil => intro t _; rfl
  | cons c pre₁ ih =>
      intro t h
      rw [List.cons_append]
      have hm : matchAt (lit w ∘ m) (c :: (pre₁ ++ t)) = none := by
        show lit w (m kDone) (c :: (pre₁ ++ t)) [] = none
        apply lit_not_prefix
        intro hp
        exact h 0 (by simp) (by simpa using hp)
      rw [reSearch_cons_none hm]
      apply ih
      intro i hi
      have := h (i + 1) (by simpa using Nat.succ_lt_succ hi)
      simpa using this

/-- The feedback pattern, applied at a well-formed occurrence, captures the
text between `Feedback:\n` and the first blank-line-plus-marker after it. -/
theorem matchAt_feedback (g suf : List Char) (h2 : g ≠ [])
    (h3 : ∀ k < g.length, 0 < k →
      ¬ ("\n\nSuggested Revised Code:".data <+:
          (g ++ "\n\nSuggested Revised Code:".data).drop k)) :
    matchAt feedbackPat
      ("Feedback:\n".data ++ (g ++ ("\n\nSuggested Revised Code:".data ++ suf))) =
      some ([g], suf) := by
  show lit "Feedback:\n".data
      (grpLazyPlusAny (lit "\n\nSuggested Revised Code:".data kDone))
      ("Feedback:\n".data ++ (g ++ ("\n\nSuggested Revised Code:".data ++ suf))) [] =
    some ([g], suf)
  rw [lit_append]
  apply grpLazyPlusAny_app h2
  · intro g₁ g₂ he hg₁ hg₂
    apply lit_not_prefix
    intro hp
    have hk : 0 < g₁.length := List.length_pos.mpr hg₁
    have hklt : g₁.length < g.length := by
      subst he
      rw [List.length_append]
      have := List.length_pos.mpr hg₂
      omega
    apply h3 g₁.length hklt hk
    subst he
    rw [List.append_assoc, List.drop_left]
    have hpre : g₂ ++ "\n\nSuggested Revised Code:".data <+:
        g₂ ++ ("\n\nSuggested Revised Code:".data ++ suf) := by
      rw [← List.append_assoc]
      exact List.prefix_append _ suf
    exact List.prefix_of_prefix_length_le hp hpre (by simp)
  · rw [lit_append]
    rfl

/-- C3 counterexample: a text with a `Feedback:` line directly followed (one
line later, with no blank line) by the marker `Suggested Revised Code:`
yields feedback `""`, not the intervening text `"Good"`, because the regex
demands a blank line (`\n\n`) before the marker. -/
theorem claim_C3_counterexample :
    parse_code_review_response "Feedback:\nGood\nSuggested Revised Code:".data =
      .ok { score := none, feedback := [], revised_code := [],
            youtube_link := none } ∧
    occursIn "Feedback:\n".data "Feedback:\nGood\nSuggested Revised Code:".data = true ∧
    occursIn "Suggested Revised Code:".data
      "Feedback:\nGood\nSuggested Revised Code:".data = true :=
  ⟨rfl, rfl, rfl⟩

/-- C3 amended: the feedback is the text strictly between the marker
`Feedback:` followed by a newline and the earliest subsequent blank line
that is immediately followed by `Suggested Revised Code:` (trimmed; the
intervening text must be nonempty), and the empty string when no such region
exists: for any text of that shape whose prefix contains no earlier
`Feedback:\n` occurrence and whose body contains no earlier blank-line
marker, the feedback is exactly the trimmed body. -/
theorem claim_C3 (pre g suf : List Char)
    (h1 : ∀ i < pre.length,
      ¬ ("Feedback:\n".data <+:
          ((pre ++ ("Feedback:\n".data ++
            (g ++ ("\n\nSuggested Revised Code:".data ++ suf)))).drop i)))
    (h2 : g ≠ [])
    (h3 : ∀ k < g.length, 0 < k →
      ¬ ("\n\nSuggested Revised Code:".data <+:
          (g ++ "\n\nSuggested Revised Code:".data).drop k)) :
    fbField (pre ++ ("Feedback:\n".data ++
        (g ++ ("\n\nSuggested Revised Code:".data ++ suf)))) =
      pyStrip g := by
  have hskip : reSearch feedbackPat
      (pre ++ ("Feedback:\n".data ++
        (g ++ ("\n\nSuggested Revised Code:".data ++ suf)))) =
      reSearch feedbackPat
      ("Feedback:\n".data ++ (g ++ ("\n\nSuggested Revised Code:".data ++ suf))) :=
    reSearch_skip_prefix
      (grpLazyPlusAny ∘ lit "\n\nSuggested Revised Code:".data) pre _ h1
  have hsearch : reSearch feedbackPat
      (pre ++ ("Feedback:\n".data ++
        (g ++ ("\n\nSuggested Revised Code:".data ++ suf)))) = some ([g], suf) := by
    rw [hskip]
    exact reSearch_of_matchAt (matchAt_feedback g suf h2 h3)
  simp only [fbField, hsearch]

/-- Witness for C3 with a nonempty prefix before the `Feedback:` line. -/
theorem claim_C3_witness :
    fbField ("Review done.\n".data ++ ("Feedback:\n".data ++
        ("Nice work".data ++ ("\n\nSuggested Revised Code:".data ++ "\nx".data)))) =
      pyStrip "Nice work".data :=
  claim_C3 "Review done.\n".data "Nice work".data "\nx".data
    (by decide) (by decide) (by decide)

/-- The score pattern, applied at a well-formed occurrence, captures the
digit run before `/100`. -/
theorem matchAt_score (ws ds suf : List Char)
    (h2 : ∀ c ∈ ws, pyIsSpace c = true) (h3 : ds ≠ [])
    (h4 : ∀ c ∈ ds, pyIsDigit c = true) :
    matchAt scorePat ("Score:".data ++ (ws ++ (ds ++ ("/100".data ++ suf)))) =
      some ([ds], suf) := by
  show lit "Score:".data
      (clsStarGreedy pyIsSpace
        (grp (clsPlusGreedy pyIsDigit) (lit "/100".data kDone)))
      ("Score:".data ++ (ws ++ (ds ++ ("/100".data ++ suf)))) [] = some ([ds], suf)
  rw [lit_append]
  have hs1 : headNotP pyIsSpace (ds ++ ("/100".data ++ suf)) = true := by
    cases hd : ds with
    | nil => exact absurd hd h3
    | cons c t =>
        have hc := h4 c (hd ▸ List.mem_cons_self c t)
        simp [headNotP, digit_not_space hc]
  have hs2 : headNotP pyIsDigit ("/100".data ++ suf) = true := by
    show headNotP pyIsDigit ('/' :: ("100".data ++ suf)) = true
    simp [headNotP, pyIsDigit]
  have hk2 : lit "/100".data kDone ("/100".data ++ suf)
      ([] ++ [(ds ++ ("/100".data ++ suf)).take
        ((ds ++ ("/100".data ++ suf)).length - ("/100".data ++ suf).length)]) =
      some ([ds], suf) := by
    rw [take_consumed, lit_append]
    rfl
  have hk1 : grp (clsPlusGreedy pyIsDigit) (lit "/100".data kDone)
      (ds ++ ("/100".data ++ suf)) [] = some ([ds], suf) :=
    clsPlusGreedy_run h3 h4 hs2 hk2
  exact clsStarGreedy_run h2 hs1 hk1

/-- C4 counterexample: the text `"x Score: 5/100"`, in which `Score:` occurs
only in mid-line position, still produces score 5, because the regex
`Score:\s*(\d+)/100` has no line anchor — against the claim that a mid-line
occurrence does not produce a score. -/
theorem claim_C4_counterexample :
    parse_code_review_response "x Score: 5/100".data =
      .ok { score := some 5, feedback := [], revised_code := [],
            youtube_link := none } :=
  rfl

/-- C4 amended: the score is the integer captured at the leftmost occurrence
of `Score:` followed by optional whitespace, digits, and `/100` — anywhere
in the text, with no requirement that `Score:` start a line — and null when
no such occurrence exists: for any text of that shape whose prefix contains
no earlier `Score:` occurrence, the parsed score is exactly the value of the
digit run. -/
theorem claim_C4 (pre ws ds suf : List Char)
    (h1 : ∀ i < pre.length,
      ¬ ("Score:".data <+:
          ((pre ++ ("Score:".data ++ (ws ++ (ds ++ ("/100".data ++ suf))))).drop i)))
    (h2 : ∀ c ∈ ws, pyIsSpace c = true)
    (h3 : ds ≠ [])
    (h4 : ∀ c ∈ ds, pyIsDigit c = true) :
    parse_code_review_response
        (pre ++ ("Score:".data ++ (ws ++ (ds ++ ("/100".data ++ suf))))) =
      .ok { score := some (digitsVal ds),
            feedback := fbField
              (pre ++ ("Score:".data ++ (ws ++ (ds ++ ("/100".data ++ suf))))),
            revised_code := rcField
              (pre ++ ("Score:".data ++ (ws ++ (ds ++ ("/100".data ++ suf))))),
            youtube_link := ytField
              (pre ++ ("Score:".data ++ (ws ++ (ds ++ ("/100".data ++ suf))))) } := by
  have hskip : reSearch scorePat
      (pre ++ ("Score:".data ++ (ws ++ (ds ++ ("/100".data ++ suf))))) =
      reSearch scorePat ("Score:".data ++ (ws ++ (ds ++ ("/100".data ++ suf)))) :=
    reSearch_skip_prefix
      (clsStarGreedy pyIsSpace ∘ grp (clsPlusGreedy pyIsDigit) ∘ lit "/100".data)
      pre _ h1
  have hsearch : reSearch scorePat
      (pre ++ ("Score:".data ++ (ws ++ (ds ++ ("/100".data ++ suf))))) =
      some ([ds], suf) := by
    rw [hskip]
    exact reSearch_of_matchAt (matchAt_score ws ds suf h2 h3 h4)
  simp only [parse_code_review_response, hsearch, pyInt?_of_digits h3 h4]

/-- Witness for C4: a mid-line `Score:` occurrence produces the score. -/
theorem claim_C4_witness :
    parse_code_review_response
        ("x ".data ++ ("Score:".data ++ (" ".data ++ ("87".data ++ ("/100".data ++ "\n".data))))) =
      .ok { score := some (digitsVal "87".data),
            feedback := fbField
              ("x ".data ++ ("Score:".data ++ (" ".data ++ ("87".data ++ ("/100".data ++ "\n".data))))),
            revised_code := rcField
              ("x ".data ++ ("Score:".data ++ (" ".data ++ ("87".data ++ ("/100".data ++ "\n".data))))),
            youtube_link := ytField
              ("x ".data ++ ("Score:".data ++ (" ".data ++ ("87".data ++ ("/100".data ++ "\n".data))))) } :=
  claim_C4 "x ".data " ".data "87".data "\n".data
    (by decide) (by decide) (by decide) (by decide)

/-- A literal step with an explicitly chosen remainder (allows splitting a
combined string literal definitionally). -/
theorem lit_run (r : List Char) {w : List Char} {k : K} {caps : Caps}
    {v : Caps × List Char} {s : List Char}
    (hs : s = w ++ r) (hk : k r caps = some v) :
    lit w k s caps = some v := by
  subst hs
  rw [lit_append]
  exact hk

theorem single_prefix {a : Char} {l : List Char} (h : [a] <+: l) :
    ∃ u, l = a :: u := by
  obtain ⟨u, hu⟩ := h
  exact ⟨u, hu.symm⟩

theorem headNotP_append {p : Char → Bool} {l : List Char} (hne : l ≠ [])
    (h : headNotP p l = true) (x : List Char) : headNotP p (l ++ x) = true := by
  cases l with
  | nil => exact absurd rfl hne
  | cons c u => exact h

theorem headNotP_nonspace_of_headSpace {t : List Char}
    (ht : headSpaceOrNil t = true) :
    headNotP (fun c => !pyIsSpace c) t = true := by
  cases t with
  | nil => rfl
  | cons c u =>
      simp only [headSpaceOrNil] at ht
      simp [headNotP, ht]

theorem headNotP_url (b : IssueBlock) (x : List Char) :
    headNotP pyIsSpace (urlOf b ++ x) = true := by
  unfold urlOf
  cases b.secure
  · rfl
  · rfl

theorem url_all_nonspace (b : IssueBlock)
    (h : b.upath.all (fun c => !pyIsSpace c) = true) :
    ∀ c ∈ urlOf b, pyIsSpace c = false := by
  have hs : ∀ x ∈ "https://".data, pyIsSpace x = false := by decide
  have hh : ∀ x ∈ "http://".data, pyIsSpace x = false := by decide
  have hu : ∀ x ∈ b.upath, pyIsSpace x = false := by
    intro x hx
    have := List.all_eq_true.mp h x hx
    simpa using this
  intro c hc
  unfold urlOf at hc
  cases hsec : b.secure
  · rw [hsec] at hc
    simp only [if_neg Bool.false_ne_true] at hc
    rcases List.mem_append.mp hc with hc | hc
    · exact hh c hc
    · exact hu c hc
  · rw [hsec] at hc
    simp only [if_pos rfl] at hc
    rcases List.mem_append.mp hc with hc | hc
    · exact hs c hc
    · exact hu c hc

/-- Running the inner pattern of the URL group `(https?://[^\s]+)` over a
well-formed URL consumes exactly the URL. -/
theorem urlInner_run (b : IssueBlock) (t : List Char) (hup : b.upath ≠ [])
    (hupns : ∀ c ∈ b.upath, (fun c => !pyIsSpace c) c = true)
    (hts : headNotP (fun c => !pyIsSpace c) t = true)
    (k : K) (caps : Caps) {v : Caps × List Char}
    (hk : k t caps = some v) :
    lit "http".data
      (opt (lit "s".data)
        (lit "://".data (clsPlusGreedy (fun c => !pyIsSpace c) k)))
      (urlOf b ++ t) caps = some v := by
  cases hsec : b.secure
  · have hurl : urlOf b ++ t = "http".data ++ ("://".data ++ (b.upath ++ t)) := by
      simp [urlOf, hsec, List.append_assoc]
    rw [hurl, lit_append]
    have hfailS : lit "s".data
        (lit "://".data (clsPlusGreedy (fun c => !pyIsSpace c) k))
        ("://".data ++ (b.upath ++ t)) caps = none := by
      apply lit_not_prefix
      intro hp
      obtain ⟨u, hu⟩ := single_prefix hp
      have hu2 : (':' :: ("//".data ++ (b.upath ++ t))) = 's' :: u := hu
      injection hu2 with h1 _
      exact absurd h1 (by decide)
    show orElseO (lit "s".data
        (lit "://".data (clsPlusGreedy (fun c => !pyIsSpace c) k))
        ("://".data ++ (b.upath ++ t)) caps)
        (fun _ => lit "://".data (clsPlusGreedy (fun c => !pyIsSpace c) k)
          ("://".data ++ (b.upath ++ t)) caps) = some v
    rw [orElseO_of_none hfailS, lit_append]
    exact clsPlusGreedy_run hup hupns hts hk
  · have hurl : urlOf b ++ t = "http".data ++ ("s://".data ++ (b.upath ++ t)) := by
      simp [urlOf, hsec, List.append_assoc]
    rw [hurl, lit_append]
    refine orElseO_of_some ?_
    refine lit_run ("://".data ++ (b.upath ++ t)) rfl ?_
    rw [lit_append]
    exact clsPlusGreedy_run hup hupns hts hk

/-- The URL group captures exactly the URL. -/
theorem grp_url (b : IssueBlock) (t : List Char) (hup : b.upath ≠ [])
    (hupns : b.upath.all (fun c => !pyIsSpace c) = true)
    (ht : headSpaceOrNil t = true) (caps : Caps) :
    grp (lit "http".data ∘ opt (lit "s".data) ∘ lit "://".data ∘
         clsPlusGreedy (fun c => !pyIsSpace c)) kDone (urlOf b ++ t) caps =
      some (caps ++ [urlOf b], t) := by
  refine urlInner_run b t hup (fun c hc => List.all_eq_true.mp hupns c hc)
      (headNotP_nonspace_of_headSpace ht) _ caps ?_
  show kDone t
      (caps ++ [(urlOf b ++ t).take ((urlOf b ++ t).length - t.length)]) =
    some (caps ++ [urlOf b], t)
  rw [take_consumed]
  rfl

/-- The issue pattern, applied at the start of a well-formed block, matches
exactly the block's core, capturing the name, the explanation plus its
separating space, and the URL. -/
theorem matchAt_issue (b : IssueBlock) (t : List Char) (hb : goodBlock b)
    (ht : headSpaceOrNil t = true) :
    matchAt issuePat (coreIssue b ++ t) =
      some ([b.name, b.expl ++ " ".data, urlOf b], t) := by
  obtain ⟨hnum, hnumd, hname, hncol, hnhead, hexpl, hehead, hmk, hup, hupns⟩ := hb
  have hnumd' : ∀ c ∈ b.num, pyIsDigit c = true := fun c hc => by
    simpa using List.all_eq_true.mp hnumd c hc
  have hcore : coreIssue b ++ t =
      "IssueNumber ".data ++ (b.num ++ (". ".data ++ (b.name ++ (": ".data ++
        (b.expl ++ (" - YouTube: ".data ++ (urlOf b ++ t))))))) := by
    simp [coreIssue, List.append_assoc]
  rw [hcore]
  show lit "IssueNumber ".data
      (clsPlusGreedy pyIsDigit
       (lit ".".data
        (clsPlusGreedy pyIsSpace
         (grpLazyPlusAny
          (lit ":".data
           (clsPlusGreedy pyIsSpace
            (grpLazyStarAny
             (lit "- YouTube:".data
              (clsPlusGreedy pyIsSpace
               (grp (lit "http".data ∘ opt (lit "s".data) ∘ lit "://".data ∘
                     clsPlusGreedy (fun c => !pyIsSpace c)) kDone))))))))))
      ("IssueNumber ".data ++ (b.num ++ (". ".data ++ (b.name ++ (": ".data ++
        (b.expl ++ (" - YouTube: ".data ++ (urlOf b ++ t)))))))) [] =
    some ([b.name, b.expl ++ " ".data, urlOf b], t)
  rw [lit_append]
  refine clsPlusGreedy_run hnum hnumd' (by rfl) ?_
  refine lit_run (" ".data ++ (b.name ++ (": ".data ++
    (b.expl ++ (" - YouTube: ".data ++ (urlOf b ++ t)))))) rfl ?_
  refine clsPlusGreedy_run (by decide) (by decide)
    (headNotP_append hname hnhead _) ?_
  refine grpLazyPlusAny_app hname ?_ ?_
  · intro g₁ g₂ he hg₁ hg₂
    apply lit_not_prefix
    intro hp
    obtain ⟨u, hu⟩ := single_prefix hp
    cases hg₂c : g₂ with
    | nil => exact hg₂ hg₂c
    | cons c g₃ =>
        subst hg₂c
        have hu2 : c :: (g₃ ++ (": ".data ++
            (b.expl ++ (" - YouTube: ".data ++ (urlOf b ++ t))))) = ':' :: u := hu
        injection hu2 with h1 _
        apply hncol
        rw [he, h1]
        exact List.mem_append.mpr (Or.inr (List.mem_cons_self _ _))
  · refine lit_run (" ".data ++ (b.expl ++
      (" - YouTube: ".data ++ (urlOf b ++ t)))) rfl ?_
    refine clsPlusGreedy_run (by decide) (by decide)
      (headNotP_append hexpl hehead _) ?_
    have hre : b.expl ++ (" - YouTube: ".data ++ (urlOf b ++ t)) =
        (b.expl ++ " ".data) ++
          ("- YouTube:".data ++ (" ".data ++ (urlOf b ++ t))) := by
      rw [List.append_assoc]
      rfl
    rw [hre]
    refine grpLazyStarAny_pos (by simp) ?_ ?_ ?_
    · apply lit_not_prefix
      intro hp
      have hpre2 : (b.expl ++ " ".data) ++ "- YouTube:".data <+:
          (b.expl ++ " ".data) ++
            ("- YouTube:".data ++ (" ".data ++ (urlOf b ++ t))) := by
        have := List.prefix_append
          ((b.expl ++ " ".data) ++ "- YouTube:".data) (" ".data ++ (urlOf b ++ t))
        simpa [List.append_assoc] using this
      have hple := List.prefix_of_prefix_length_le hp hpre2
        (by rw [List.length_append]; omega)
      apply hmk 0 (by omega)
      have hconv : (b.expl ++ " ".data) ++ "- YouTube:".data =
          b.expl ++ " - YouTube:".data := by
        rw [List.append_assoc]
        rfl
      rw [hconv] at hple
      simpa using hple
    · intro g₁ g₂ he hg₁ hg₂
      apply lit_not_prefix
      intro hp
      have hpre2 : g₂ ++ "- YouTube:".data <+:
          g₂ ++ ("- YouTube:".data ++ (" ".data ++ (urlOf b ++ t))) := by
        have := List.prefix_append
          (g₂ ++ "- YouTube:".data) (" ".data ++ (urlOf b ++ t))
        simpa [List.append_assoc] using this
      have hple := List.prefix_of_prefix_length_le hp hpre2
        (by rw [List.length_append]; omega)
      have hklt : g₁.length < b.expl.length + 1 := by
        have hlen := congrArg List.length he
        have h2 := List.length_pos.mpr hg₂
        simp [List.length_append] at hlen
        omega
      apply hmk g₁.length hklt
      have hsplit : b.expl ++ " - YouTube:".data =
          g₁ ++ (g₂ ++ "- YouTube:".data) := by
        have h1 : b.expl ++ " - YouTube:".data =
            (b.expl ++ " ".data) ++ "- YouTube:".data := by
          rw [List.append_assoc]
          rfl
        rw [h1, he, List.append_assoc]
      rw [hsplit, List.drop_left]
      exact hple
    · refine lit_run (" ".data ++ (urlOf b ++ t)) rfl ?_
      refine clsPlusGreedy_run (by decide) (by decide) (headNotP_url b t) ?_
      exact grp_url b t hup hupns ht _

theorem matchAt_lit_comp_none {w : List Char} (m : PM) {s : List Char}
    (h : ¬ (w <+: s)) : matchAt (lit w ∘ m) s = none := by
  show lit w (m kDone) s [] = none
  exact lit_not_prefix _ _ h

/-- No issue match can start at a character other than `I`. -/
theorem matchAt_issue_cons_none {c : Char} (x : List Char) (hc : c ≠ 'I') :
    matchAt issuePat (c :: x) = none := by
  have hnp : ¬ ("IssueNumber ".data <+: c :: x) := by
    intro hp
    obtain ⟨u, hu⟩ := hp
    have hu2 : 'I' :: ("ssueNumber ".data ++ u) = c :: x := hu
    injection hu2 with h1 _
    exact hc h1.symm
  exact matchAt_lit_comp_none
    (clsPlusGreedy pyIsDigit ∘ lit ".".data ∘ clsPlusGreedy pyIsSpace ∘
     grpLazyPlusAny ∘ lit ":".data ∘ clsPlusGreedy pyIsSpace ∘ grpLazyStarAny ∘
     lit "- YouTube:".data ∘ clsPlusGreedy pyIsSpace ∘
     grp (lit "http".data ∘ opt (lit "s".data) ∘ lit "://".data ∘
          clsPlusGreedy (fun c => !pyIsSpace c))) hnp

/-- On a rendered block list, the leftmost match is the first block. -/
theorem reSearch_render_cons (b : IssueBlock) (bs : List IssueBlock)
    (hb : goodBlock b) :
    reSearch issuePat (renderAll (b :: bs)) =
      some ([b.name, b.expl ++ " ".data, urlOf b], "\n".data ++ renderAll bs) := by
  have hr : renderAll (b :: bs) = coreIssue b ++ ("\n".data ++ renderAll bs) := by
    simp [renderAll, renderIssue, List.append_assoc]
  rw [hr]
  exact reSearch_of_matchAt (matchAt_issue b _ hb rfl)

theorem coreIssue_length (b : IssueBlock) : 12 ≤ (coreIssue b).length := by
  unfold coreIssue
  rw [List.length_append]
  have h12 : ("IssueNumber ".data).length = 12 := rfl
  omega

theorem renderAll_cons_length (b : IssueBlock) (bs : List IssueBlock) :
    (renderAll (b :: bs)).length =
      (coreIssue b).length + (1 + (renderAll bs).length) := by
  have hr : renderAll (b :: bs) = coreIssue b ++ ("\n".data ++ renderAll bs) := by
    simp [renderAll, renderIssue, List.append_assoc]
  rw [hr, List.length_append, List.length_append]
  rfl

/-- The full `findall` computation over a rendered block list, with any
sufficient fuel, both from the start of the text and after a leading
newline. -/
theorem reFindAllAux_renderAll :
    ∀ bs : List IssueBlock, (∀ b ∈ bs, goodBlock b) →
    (∀ fuel, (renderAll bs).length < fuel →
      reFindAllAux issuePat fuel (renderAll bs) =
        bs.map fun b => [b.name, b.expl ++ " ".data, urlOf b]) ∧
    (∀ fuel, (renderAll bs).length + 1 < fuel →
      reFindAllAux issuePat fuel ("\n".data ++ renderAll bs) =
        bs.map fun b => [b.name, b.expl ++ " ".data, urlOf b]) := by
  intro bs
  induction bs with
  | nil =>
      intro _
      constructor
      · intro fuel hf
        cases fuel with
        | zero => omega
        | succ f => rfl
      · intro fuel hf
        have hL : (renderAll ([] : List IssueBlock)).length = 0 := rfl
        cases fuel with
        | zero => omega
        | succ f => rfl
  | cons b bs ih =>
      intro hall
      have hb : goodBlock b := hall b (List.mem_cons_self _ _)
      have hall2 : ∀ x ∈ bs, goodBlock x :=
        fun x hx => hall x (List.mem_cons_of_mem _ hx)
      obtain ⟨-, ih2⟩ := ih hall2
      have hsearch := reSearch_render_cons b bs hb
      have hlenc := renderAll_cons_length b bs
      have hcorelen := coreIssue_length b
      have hnl : ("\n".data ++ renderAll bs).length = 1 + (renderAll bs).length := by
        rw [List.length_append]
        rfl
      have hnlB : (['\n'] ++ renderAll bs).length = 1 + (renderAll bs).length := by
        rw [List.length_append]
        rfl
      have hnlC : (['\n'] ++ renderAll (b :: bs)).length =
          1 + (renderAll (b :: bs)).length := by
        rw [List.length_append]
        rfl
      have hnlD : ("\n".data ++ renderAll (b :: bs)).length =
          1 + (renderAll (b :: bs)).length := by
        rw [List.length_append]
        rfl
      constructor
      · intro fuel hf
        cases fuel with
        | zero => omega
        | succ f =>
            simp only [reFindAllAux, hsearch]
            rw [if_pos (by omega), List.map_cons]
            congr 1
            exact ih2 f (by omega)
      · intro fuel hf
        cases fuel with
        | zero => omega
        | succ f =>
            have hskip : reSearch issuePat ("\n".data ++ renderAll (b :: bs)) =
                reSearch issuePat (renderAll (b :: bs)) :=
              reSearch_cons_none (matchAt_issue_cons_none _ (by decide))
            simp only [reFindAllAux, hskip, hsearch]
            rw [if_pos (by omega), List.map_cons]
            congr 1
            exact ih2 f (by omega)

/-- C1: a text consisting of exactly N well-formed `IssueNumber` blocks
parses to exactly N records, one per block in source order, with each field
trimmed of surrounding whitespace — the explanation capture carries the
separating space, which `strip()` removes; and a text in which the pattern
finds no match at all parses to the empty issue list (never an error). -/
theorem claim_C1 :
    (∀ bs : List IssueBlock, (∀ b ∈ bs, goodBlock b) →
      parse_sonarqube_summary (renderAll bs) =
        { issues := bs.map fun b =>
            { name := pyStrip b.name, explanation := pyStrip b.expl,
              link := urlOf b } }) ∧
    (∀ s, reSearch issuePat s = none →
      parse_sonarqube_summary s = { issues := [] }) := by
  constructor
  · intro bs hall
    have h := (reFindAllAux_renderAll bs hall).1 ((renderAll bs).length + 1)
      (by omega)
    unfold parse_sonarqube_summary reFindAll
    rw [h, List.map_map]
    congr 1
    apply List.map_congr_left
    intro b hb
    obtain ⟨-, -, -, -, -, -, -, -, -, hupns⟩ := hall b hb
    show ({ name := pyStrip b.name,
            explanation := pyStrip (b.expl ++ " ".data),
            link := pyStrip (urlOf b) } : IssueRecord) = _
    rw [show b.expl ++ " ".data = b.expl ++ [' '] from rfl, pyStrip_append_space,
        pyStrip_of_all_nonspace (url_all_nonspace b hupns)]
  · intro s hs
    unfold parse_sonarqube_summary reFindAll
    simp only [reFindAllAux, hs]
    rfl

/-- Witness for C1: two concrete well-formed blocks, and a block-free text. -/
theorem claim_C1_witness :
    parse_sonarqube_summary (renderAll
      [⟨"1".data, "Null deref".data, "Bad pointer".data, true, "youtu.be/a".data⟩,
       ⟨"2".data, "Dup code".data, "Copy paste".data, false, "youtu.be/b".data⟩]) =
      { issues :=
          [(⟨"1".data, "Null deref".data, "Bad pointer".data, true, "youtu.be/a".data⟩ : IssueBlock),
           ⟨"2".data, "Dup code".data, "Copy paste".data, false, "youtu.be/b".data⟩].map
            fun b => { name := pyStrip b.name, explanation := pyStrip b.expl,
                       link := urlOf b } } ∧
    reSearch issuePat "no issues here".data = none ∧
    parse_sonarqube_summary "no issues here".data = { issues := [] } :=
  ⟨claim_C1.1 _ (by decide), rfl, claim_C1.2 "no issues here".data rfl⟩
